import Mathlib

/-!
Verification of the configparseradv repository: a shallow embedding of
`configparseradv/configparser.py` (class `ConfigParserAdv`: `getvalue`,
`getvalueiter`, `getquantity`, `get_boolean`) and `converters.py`
(`splitter_decorator`, `coma_splitter`, `list_converter`,
`intlist_converter`, `floatlist_converter`, `astropy_converter`),
together with theorems settling the specification claims.

Python builtins (`str.split`, `str.strip`, `str.lower`, `int()`, `float()`,
sequence indexing, decimal rendering of integers) are modelled by structural
Lean functions so that every definition evaluates inside the kernel.
-/

/-! ### Python string and number primitives -/

/-- Model of Python `str.strip()` (trim ASCII/unicode whitespace at both ends). -/
def pyStrip (s : String) : String :=
  ⟨((s.data.dropWhile Char.isWhitespace).reverse.dropWhile Char.isWhitespace).reverse⟩

/-- Model of Python `str.lower()`. -/
def pyLower (s : String) : String := ⟨s.data.map Char.toLower⟩

/-- Does the character list start with the given pattern? -/
def listStartsWith : List Char → List Char → Bool
  | [], _ => true
  | _ :: _, [] => false
  | a :: as, b :: bs => a = b && listStartsWith as bs

/-- Fuel-driven worker for Python `str.split(sep)` with a non-empty separator:
split at each leftmost, non-overlapping occurrence of `sep`. -/
def splitOnAuxF (sep : List Char) : Nat → List Char → List Char → List (List Char)
  | 0, s, acc => [acc.reverse ++ s]
  | f + 1, s, acc =>
    match s with
    | [] => [acc.reverse]
    | c :: rest =>
      if listStartsWith sep (c :: rest) then
        acc.reverse :: splitOnAuxF sep f ((c :: rest).drop sep.length) []
      else
        splitOnAuxF sep f rest (c :: acc)

/-- Model of Python `str.split(sep)` for an explicit separator. -/
def pySplitOn (s : String) (sep : String) : List String :=
  if sep.data = [] then [s]
  else (splitOnAuxF sep.data (s.data.length + 1) s.data []).map (fun l => ⟨l⟩)

/-- Worker for Python `str.split()` (split on whitespace runs, dropping empties). -/
def splitWsAux : List Char → List Char → List (List Char)
  | [], acc => if acc.isEmpty then [] else [acc.reverse]
  | c :: rest, acc =>
    if c.isWhitespace then
      if acc.isEmpty then splitWsAux rest [] else acc.reverse :: splitWsAux rest []
    else splitWsAux rest (c :: acc)

/-- Model of Python `str.split()` with no argument. -/
def pySplitWs (s : String) : List String := (splitWsAux s.data []).map (fun l => ⟨l⟩)

/-- Model of Python sequence indexing `l[n]` (negative indices count from the
end; out of range raises `IndexError`, modelled as `Option.none`). -/
def pyIndex {α : Type} (l : List α) (n : Int) : Option α :=
  if 0 ≤ n then l.get? n.toNat
  else if -(l.length : Int) ≤ n then l.get? ((l.length : Int) + n).toNat
  else Option.none

/-- Numeric value of a decimal digit character. -/
def digitVal (c : Char) : Option Nat :=
  if c.isDigit then some (c.toNat - 48) else Option.none

/-- Read a run of decimal digits (accumulator form); fails on a non-digit. -/
def readDigitsAux : List Char → Nat → Option Nat
  | [], acc => some acc
  | c :: cs, acc =>
    match digitVal c with
    | some d => readDigitsAux cs (acc * 10 + d)
    | Option.none => Option.none

/-- Read a non-empty run of decimal digits. -/
def readDigits : List Char → Option Nat
  | [] => Option.none
  | l => readDigitsAux l 0

/-- Read a possibly empty run of decimal digits (empty reads as 0). -/
def readDigits0 (l : List Char) : Option Nat := readDigitsAux l 0

/-- Model of Python `int(s)`: optional surrounding whitespace, optional sign,
then decimal digits; anything else raises `ValueError` (`Option.none`). -/
def pyInt? (s : String) : Option Int :=
  match (pyStrip s).data with
  | '+' :: rest => (readDigits rest).map Int.ofNat
  | '-' :: rest => (readDigits rest).map (fun n => -(n : Int))
  | rest => (readDigits rest).map Int.ofNat

/-- Split a character list at the first `'.'`, if any. -/
def splitDot : List Char → List Char × Option (List Char)
  | [] => ([], Option.none)
  | c :: cs =>
    if c = '.' then ([], some cs)
    else
      let r := splitDot cs
      (c :: r.1, r.2)

/-- Split a character list at the first `'e'`/`'E'`, if any. -/
def splitExp : List Char → List Char × Option (List Char)
  | [] => ([], Option.none)
  | c :: cs =>
    if c = 'e' ∨ c = 'E' then ([], some cs)
    else
      let r := splitExp cs
      (c :: r.1, r.2)

/-- Model of Python `float(s)` for decimal literals (optional sign, integer
and fractional digit parts, optional exponent), as an exact rational.
Failure models `ValueError`. -/
def pyFloat? (s : String) : Option ℚ :=
  let t := (pyStrip s).data
  let sgnRest : Int × List Char :=
    match t with
    | '+' :: r => (1, r)
    | '-' :: r => (-1, r)
    | r => (1, r)
  let mantExp := splitExp sgnRest.2
  let ipFp := splitDot mantExp.1
  let fp : List Char := ipFp.2.getD []
  if ipFp.1 = [] ∧ fp = [] then Option.none
  else
    match readDigits0 ipFp.1, readDigits0 fp with
    | some ipv, some fpv =>
      let num : Int := sgnRest.1 * (ipv * 10 ^ fp.length + fpv)
      let den : Nat := 10 ^ fp.length
      match mantExp.2 with
      | Option.none => some (mkRat num den)
      | some ec =>
        let esgnRest : Int × List Char :=
          match ec with
          | '+' :: r => (1, r)
          | '-' :: r => (-1, r)
          | r => (1, r)
        match esgnRest.2 with
        | [] => Option.none
        | ed =>
          match readDigits ed with
          | some ev =>
            if 0 ≤ esgnRest.1 then some (mkRat (num * 10 ^ ev) den)
            else some (mkRat num (den * 10 ^ ev))
          | Option.none => Option.none
    | _, _ => Option.none

/-- Least-significant-first decimal digits of a natural number (fuel form). -/
def toDigitsRevAux : Nat → Nat → List Nat
  | 0, _ => []
  | f + 1, n => if n = 0 then [] else n % 10 :: toDigitsRevAux f (n / 10)

/-- Least-significant-first decimal digits of a natural number. -/
def natDigitsRev (n : Nat) : List Nat := toDigitsRevAux n n

/-- Decimal digit character for a digit value. -/
def digitChar (d : Nat) : Char := Char.ofNat (48 + d)

/-- Inverse of `digitChar` on digit values. -/
def charToDigit (c : Char) : Nat := c.toNat - 48

/-- Model of Python `str(n)` for a natural number. -/
def natToDecimal (n : Nat) : String :=
  if n = 0 then "0" else ⟨((natDigitsRev n).reverse.map digitChar)⟩

/-- Model of Python `str(i)` for an integer (as used by f-string formatting). -/
def intToStr (i : Int) : String :=
  if i < 0 then "-" ++ natToDecimal i.natAbs else natToDecimal i.toNat

/-! ### Value model for the resolver and converters -/

/-- Decidable equality for `Except`, used to evaluate embedded functions on
concrete inputs. -/
instance {e a : Type} [DecidableEq e] [DecidableEq a] : DecidableEq (Except e a) := fun x y =>
  match x, y with
  | Except.ok v, Except.ok w =>
    if h : v = w then isTrue (by rw [h]) else isFalse (fun hc => h (Except.ok.inj hc))
  | Except.error v, Except.error w =>
    if h : v = w then isTrue (by rw [h]) else isFalse (fun hc => h (Except.error.inj hc))
  | Except.ok _, Except.error _ => isFalse (fun hc => Except.noConfusion hc)
  | Except.error _, Except.ok _ => isFalse (fun hc => Except.noConfusion hc)

/-- Python exceptions that the embedded code can raise. -/
inductive PyErr where
  | typeError
  | valueError
  | indexError
  | notImplementedError
  | noSectionError
deriving DecidableEq

/-- An astropy unit, treated as a black box: either the dimensionless unit
(`u.Unit(1)` / `u.dimensionless_unscaled`) or a unit named by a string
(`u.Unit(name)`). -/
inductive UnitT where
  | one
  | named (s : String)
deriving DecidableEq

/-- An astropy quantity: scalar (`isArr = false`, one data element) or
`np.array` (`isArr = true`) tagged with a unit. -/
structure Quantity where
  data : List ℚ
  isArr : Bool
  unit : UnitT
deriving DecidableEq

/-- An astropy `SkyCoord(ra, dec, frame=frame)`, treated as a black box over
its constructor arguments. -/
structure SkyCoordV where
  ra : String
  dec : String
  frame : String
deriving DecidableEq

/-- The caller-visible result of value resolution. -/
inductive Value where
  | none
  | str (s : String)
  | bool (b : Bool)
  | int (i : Int)
  | float (q : ℚ)
  | quantity (q : Quantity)
  | skycoord (c : SkyCoordV)
deriving DecidableEq

/-- Wrap an optional raw string as a `Value`. -/
def toValue : Option String → Value
  | Option.none => Value.none
  | some s => Value.str s

/-- Python truthiness of a resolved value (`None` and the empty string are
falsy). The `quantity`/`skycoord` arms are never produced by the untyped
resolution paths analysed below. -/
def pyTruthy : Value → Bool
  | Value.none => false
  | Value.str s => !s.data.isEmpty
  | Value.bool b => b
  | Value.int i => i != 0
  | Value.float q => q != 0
  | Value.quantity _ => true
  | Value.skycoord _ => true

/-! ### converters.py -/

/-- `coma_splitter(val, sep)`: split on commas if the string contains a comma,
otherwise on `sep`, or on arbitrary whitespace when `sep` is `None`. -/
def coma_splitter (val : String) (sep : Option String) : List String :=
  if ',' ∈ val.data then pySplitOn val ","
  else
    match sep with
    | Option.none => pySplitWs val
    | some sp => pySplitOn val sp

/-- Map Python `int` over a list of strings, raising `ValueError` on the
first malformed element (`list(map(int, aux))`). -/
def intList : List String → Except PyErr (List Int)
  | [] => Except.ok []
  | t :: ts =>
    match pyInt? t with
    | Option.none => Except.error PyErr.valueError
    | some i =>
      match intList ts with
      | Except.error e => Except.error e
      | Except.ok l => Except.ok (i :: l)

/-- Map Python `float` over a list of strings, raising `ValueError` on the
first malformed element (also models `np.array(aux, dtype=float)`). -/
def floatList : List String → Except PyErr (List ℚ)
  | [] => Except.ok []
  | t :: ts =>
    match pyFloat? t with
    | Option.none => Except.error PyErr.valueError
    | some q =>
      match floatList ts with
      | Except.error e => Except.error e
      | Except.ok l => Except.ok (q :: l)

/-- `intlist_converter`: the wrapper produced by `splitter_decorator(dtype=int)`
around `coma_splitter`, with `min_length = 1` (so a length-1 result stays a
list and an empty result raises `ValueError`). The wrapper's own default
separator is a single space. -/
def intlist_converter (val : Option String) (sep : Option String) :
    Except PyErr (Option (List Int)) :=
  match val with
  | Option.none => Except.ok Option.none
  | some v =>
    match intList (coma_splitter v sep) with
    | Except.error e => Except.error e
    | Except.ok l =>
      if l.length < 1 then Except.error PyErr.valueError else Except.ok (some l)

/-- `floatlist_converter`: as `intlist_converter` with `dtype=float`. -/
def floatlist_converter (val : Option String) (sep : Option String) :
    Except PyErr (Option (List ℚ)) :=
  match val with
  | Option.none => Except.ok Option.none
  | some v =>
    match floatList (coma_splitter v sep) with
    | Except.error e => Except.error e
    | Except.ok l =>
      if l.length < 1 then Except.error PyErr.valueError else Except.ok (some l)

/-- `astropy_converter(val, dtype)`: dispatch on the string tag `dtype`. -/
def astropy_converter (val : String) (dtype : String) : Except PyErr Value :=
  if pyLower dtype = "quantity" then
    let aux := pySplitWs val
    if aux.length < 2 then
      match aux with
      | [] => Except.error PyErr.indexError
      | t :: _ =>
        match pyFloat? t with
        | some q => Except.ok (Value.quantity ⟨[q], false, UnitT.one⟩)
        | Option.none => Except.error PyErr.valueError
    else if aux.length = 2 then
      match aux with
      | [t, u] =>
        match pyFloat? t with
        | some q => Except.ok (Value.quantity ⟨[q], false, UnitT.named u⟩)
        | Option.none => Except.error PyErr.valueError
      | _ => Except.error PyErr.indexError
    else
      match floatList aux.dropLast with
      | Except.ok qs =>
        Except.ok (Value.quantity ⟨qs, true, UnitT.named (aux.getLastD "")⟩)
      | Except.error e => Except.error e
  else if pyLower dtype = "skycoord" then
    match pySplitWs val with
    | [ra, dec, frame] => Except.ok (Value.skycoord ⟨ra, dec, frame⟩)
    | [ra, dec] => Except.ok (Value.skycoord ⟨ra, dec, "icrs"⟩)
    | _ => Except.error PyErr.valueError
  else Except.error PyErr.notImplementedError

/-! ### The generic list converter and the bare decorator application

`list_converter` in `converters.py` is decorated with `@splitter_decorator`
(no parentheses), so the decorated function itself becomes the `dtype`
argument of the decorator factory, and the name `list_converter` ends up
bound to the inner `decorator` closure. The Python objects involved are
defunctionalised below. -/

/-- Python objects reachable from the `list_converter` definition site. -/
inductive PyObj where
  | vnone
  | vstr (s : String)
  | vlist (l : List String)
  | rawListConverter
  | decoratorObj (dtype : PyObj)
  | wrapperObj (dtype : PyObj) (funct : PyObj)
deriving DecidableEq

/-- The body of `splitter_decorator(dtype, min_length=1)`: it returns the
inner `decorator` closure capturing `dtype`. -/
def splitter_decorator (dtype : PyObj) : PyObj := PyObj.decoratorObj dtype

/-- `list_converter` as defined in the source: `@splitter_decorator` without
parentheses applies the factory directly to the undecorated function. -/
def list_converter : PyObj := splitter_decorator PyObj.rawListConverter

/-- Call a Python object with a single positional argument. `Option.none`
models an exception (non-callable target, or a `TypeError` from calling the
captured non-callable `funct` inside `wrapper`). -/
def callPy1 : PyObj → PyObj → Option PyObj
  | PyObj.decoratorObj dt, arg => some (PyObj.wrapperObj dt arg)
  | PyObj.rawListConverter, PyObj.vstr s => some (PyObj.vlist (pySplitOn s " "))
  | PyObj.wrapperObj _ _, PyObj.vnone => some PyObj.vnone
  | _, _ => Option.none

/-! ### configparser.py: store model and getvalue -/

/-- One section of the configuration store: an association list from physical
option names to raw string values. -/
abbrev SectionT : Type := List (String × String)

/-- The configuration store: named sections. -/
abbrev Store : Type := List (String × SectionT)

/-- Look up a section by name (`self.options(section)` raises
`NoSectionError` when this returns `Option.none`). -/
def findSection : Store → String → Option SectionT
  | [], _ => Option.none
  | (nm, s) :: rest, sec => if nm = sec then some s else findSection rest sec

/-- `self.options(section)`: the option names of a section. -/
def optionsOf (s : SectionT) : List String := s.map Prod.fst

/-- `self.get(section, option, fallback=fb)` within an existing section:
the option's raw value if present, otherwise the fallback. -/
def getOpt : SectionT → String → Option String → Option String
  | [], _, fb => fb
  | (k, v) :: rest, key, fb => if k = key then some v else getOpt rest key fb

/-- `get_boolean(value)` from `configparser.py`. -/
def get_boolean (value : String) : Except PyErr Bool :=
  if pyLower (pyStrip value) ∈ ["1", "yes", "true", "on"] then Except.ok true
  else if pyLower (pyStrip value) ∈ ["0", "no", "false", "off"] then Except.ok false
  else Except.error PyErr.valueError

/-- The `dtype` accessor option: unset (`None`), the builtin callables
`bool`/`int`/`float`, or a string tag dispatched to `astropy_converter`
(calling a string raises `TypeError`, which `getvalue` catches). -/
inductive Dtype where
  | noneD
  | boolD
  | intD
  | floatD
  | strTag (s : String)
deriving DecidableEq

/-- The conversion step at the end of `getvalue`: `if opts['dtype'] is None or
value is None: return value`, boolean via `get_boolean`, a callable dtype
applied directly (`ValueError` on malformed numerals), and a string tag
dispatched through the caught `TypeError` to `astropy_converter`. -/
def convert (dt : Dtype) (v : Option String) : Except PyErr Value :=
  match dt with
  | Dtype.noneD => Except.ok (toValue v)
  | Dtype.boolD =>
    match v with
    | Option.none => Except.ok Value.none
    | some s =>
      match get_boolean s with
      | Except.ok b => Except.ok (Value.bool b)
      | Except.error e => Except.error e
  | Dtype.intD =>
    match v with
    | Option.none => Except.ok Value.none
    | some s =>
      match pyInt? s with
      | some i => Except.ok (Value.int i)
      | Option.none => Except.error PyErr.valueError
  | Dtype.floatD =>
    match v with
    | Option.none => Except.ok Value.none
    | some s =>
      match pyFloat? s with
      | some q => Except.ok (Value.float q)
      | Option.none => Except.error PyErr.valueError
  | Dtype.strTag t =>
    match v with
    | Option.none => Except.ok Value.none
    | some s => astropy_converter s t

/-- The strip-then-convert tail of `getvalue` (`value.strip()` guarded by
`try/except AttributeError`, then the conversion step). -/
def postprocess (dt : Dtype) (v : Option String) : Except PyErr Value :=
  convert dt (v.map pyStrip)

/-- The per-call accessor options of `getvalue` (`opts` dict). -/
structure Opts where
  fallback : Option String
  n : Option Int
  sep : String
  dtype : Dtype
  allow_global : Bool

/-- The default accessor options of `getvalue`. -/
def defaultOpts : Opts := ⟨Option.none, Option.none, " ", Dtype.noneD, true⟩

/-- The warning printed by `getvalue` on an out-of-range index. -/
def warnMsg (key : String) : String :=
  "WARNING: " ++ key ++ " not in values list, using fallback"

/-- The raw-resolution core of `getvalue` inside an existing section, after
`n = int(opts['n'])` has succeeded: the indexed option `f'{key}{n}'` first,
else the base key split by `sep` with the single-value/`allow_global` gate
and Python indexing, else the fallback. Returns the unconverted value and
the printed warnings. -/
def resolveRaw (s : SectionT) (key : String) (fb : Option String) (n : Int)
    (sep : String) (ag : Bool) : Option String × List String :=
  if key ++ intToStr n ∈ optionsOf s then (getOpt s (key ++ intToStr n) fb, [])
  else if key ∈ optionsOf s then
    match getOpt s key fb with
    | Option.none => (fb, [])
    | some raw =>
      let parts := pySplitOn raw sep
      if parts.length = 1 then
        if n ≠ 0 ∧ ag = false then (fb, []) else (parts.head?, [])
      else
        match pyIndex parts n with
        | some e => (some e, [])
        | Option.none => (fb, [warnMsg key])
  else (fb, [])

/-- `ConfigParserAdv.getvalue(section, key, **opts)`: the full embedding,
returning the result (or raised exception), the printed warnings, and the
store after the call. `n = int(opts['n'])` raises `TypeError` when `n` is
left at its `None` default; `self.options(section)` raises `NoSectionError`
for a missing section. -/
def getvalueFull (store : Store) (sec key : String) (opts : Opts) :
    Except PyErr Value × List String × Store :=
  match opts.n with
  | Option.none => (Except.error PyErr.typeError, [], store)
  | some n =>
    match findSection store sec with
    | Option.none => (Except.error PyErr.noSectionError, [], store)
    | some s =>
      let r := resolveRaw s key opts.fallback n opts.sep opts.allow_global
      (postprocess opts.dtype r.1, r.2, store)

/-- The value returned (or exception raised) by `getvalue`. -/
def getvalue (store : Store) (sec key : String) (opts : Opts) : Except PyErr Value :=
  (getvalueFull store sec key opts).1

/-- `ConfigParserAdv.getquantity`, modelled on the string/absent result of the
initial `self.get` (a raw string has no `unit` attribute, and `str + 0`
raises the `TypeError` that skips the numeric fast path): `None` and the
empty string pass through; otherwise whitespace-split and dispatch on the
token count, with the dimensionless-marker rule for arrays. -/
def getquantity (val : Option String) : Except PyErr Value :=
  match val with
  | Option.none => Except.ok Value.none
  | some v =>
    if v.data.isEmpty then Except.ok (Value.str v)
    else
      match pySplitWs v with
      | [] => Except.error PyErr.indexError
      | [t] =>
        match pyFloat? t with
        | some q => Except.ok (Value.quantity ⟨[q], false, UnitT.one⟩)
        | Option.none => Except.error PyErr.valueError
      | [t, u] =>
        match pyFloat? t with
        | some q => Except.ok (Value.quantity ⟨[q], false, UnitT.named u⟩)
        | Option.none => Except.error PyErr.valueError
      | t1 :: t2 :: t3 :: ts =>
        let all := t1 :: t2 :: t3 :: ts
        let unit : UnitT :=
          if pyStrip (all.getLastD "") ∈ ["dimless", "dimensionless", "nounit", "1"]
          then UnitT.one else UnitT.named (all.getLastD "")
        match floatList all.dropLast with
        | Except.ok qs => Except.ok (Value.quantity ⟨qs, true, unit⟩)
        | Except.error e => Except.error e

/-! ### configparser.py: getvalueiter -/

/-- The fixed options of the iterator's probe call
(`{'sep': sep, 'n': n, 'allow_global': False}` merged over the `getvalue`
defaults). -/
def probeOpts (sep : String) (m : Nat) : Opts :=
  ⟨Option.none, some (m : Int), sep, Dtype.noneD, false⟩

/-- The caller's keyword arguments with the current index inserted
(`kwargs['n'] = opts['n']`). -/
def withN (o : Opts) (m : Nat) : Opts :=
  ⟨o.fallback, some (m : Int), o.sep, o.dtype, o.allow_global⟩

/-- The split length of the base key's raw value (0 when the key is absent);
used to bound the indices at which the probe can still succeed. -/
def LBound (s : SectionT) (key sep : String) : Nat :=
  match getOpt s key Option.none with
  | some v => (pySplitOn v sep).length
  | Option.none => 0

/-- Fuel that strictly dominates the first index at which the iterator's
probe resolves to an absent/falsy value. -/
def iterFuel (store : Store) (sec key sep : String) : Nat :=
  match findSection store sec with
  | some s => (optionsOf s).length + LBound s key sep + 2
  | Option.none => 1

/-- The loop of `getvalueiter`: while the probe is truthy, re-resolve with the
caller's options and the current index, yield unless the result is `None`,
and advance. Structural fuel stands in for the unbounded `while`. -/
def iterAux (sec key : String) (co : Opts) : Nat → Store → Nat →
    Except PyErr (List Value) × List String × Store
  | 0, st, _ => (Except.ok [], [], st)
  | f + 1, st, n =>
    let pr := getvalueFull st sec key (probeOpts co.sep n)
    match pr.1 with
    | Except.error e => (Except.error e, pr.2.1, pr.2.2)
    | Except.ok v =>
      if pyTruthy v then
        let em := getvalueFull pr.2.2 sec key (withN co n)
        match em.1 with
        | Except.error e => (Except.error e, pr.2.1 ++ em.2.1, em.2.2)
        | Except.ok ev =>
          match ev with
          | Value.none => (Except.ok [], pr.2.1 ++ em.2.1, em.2.2)
          | _ =>
            let rest := iterAux sec key co f em.2.2 (n + 1)
            (match rest.1 with
              | Except.ok l => Except.ok (ev :: l)
              | Except.error e => Except.error e,
             pr.2.1 ++ em.2.1 ++ rest.2.1, rest.2.2)
      else (Except.ok [], pr.2.1, pr.2.2)

/-- `ConfigParserAdv.getvalueiter(section, key, **kwargs)`: run the loop from
index 0 with enough fuel to reach the first gap. -/
def getvalueiterFull (store : Store) (sec key : String) (co : Opts) :
    Except PyErr (List Value) × List String × Store :=
  iterAux sec key co (iterFuel store sec key co.sep) store 0

/-- The sequence of values yielded by `getvalueiter` (or the exception that
escapes it). -/
def getvalueiterVal (store : Store) (sec key : String) (co : Opts) :
    Except PyErr (List Value) :=
  (getvalueiterFull store sec key co).1

/-- The value the iterator's probe resolves at index `m` (the Value Resolver
with `allow_global` forced off, no fallback, no dtype). -/
def probeValue (store : Store) (sec key sep : String) (m : Nat) : Value :=
  match (getvalueFull store sec key (probeOpts sep m)).1 with
  | Except.ok v => v
  | Except.error _ => Value.none

/-- Decode least-significant-first decimal digits (inverse of `natDigitsRev`). -/
def fromDigitsRev : List Nat → Nat
  | [] => 0
  | d :: ds => d + 10 * fromDigitsRev ds

/-- The first index at which the iterator's probe resolves to an absent/falsy
value (searched within the given fuel window). -/
def firstGapAux (store : Store) (sec key sep : String) : Nat → Nat → Nat
  | 0, n => n
  | f + 1, n =>
    if pyTruthy (probeValue store sec key sep n) then
      firstGapAux store sec key sep f (n + 1)
    else n

/-- The first index at which the iterator's probe resolves to an absent/falsy
value. -/
def firstGap (store : Store) (sec key sep : String) : Nat :=
  firstGapAux store sec key sep (iterFuel store sec key sep) 0

/-! ### Concrete stores used in the claims' examples -/

/-- A section holding only the base key `x`. -/
def exStore1 : Store := [("sec", [("x", "a")])]

/-- The spec's indexed-resolution example: options `x0` and `x1`. -/
def exC2 : Store := [("sec", [("x0", "a"), ("x1", "b")])]

/-- Indexed options together with the base key, to exhibit precedence. -/
def exC2pre : Store := [("sec", [("x", "z"), ("x0", "a"), ("x1", "b")])]

/-- An empty section. -/
def exEmpty : Store := [("sec", [])]

/-- A base key whose value splits into three elements. -/
def exNeg : Store := [("sec", [("x", "a b c")])]

/-! ### Helper lemmas -/

theorem getOpt_fb_irrel : ∀ (s : SectionT) (key : String) (fb fb' : Option String),
    key ∈ optionsOf s → getOpt s key fb = getOpt s key fb'
  | [], key, fb, fb', h => by simp [optionsOf] at h
  | (k, v) :: rest, key, fb, fb', h => by
    have h' : key = k ∨ key ∈ optionsOf rest := by simpa [optionsOf] using h
    by_cases hk : k = key
    · simp [getOpt, hk]
    · have hmem : key ∈ optionsOf rest := h'.resolve_left (fun he => hk he.symm)
      simp [getOpt, hk, getOpt_fb_irrel rest key fb fb' hmem]

theorem getOpt_some_of_mem : ∀ (s : SectionT) (key : String) (fb : Option String),
    key ∈ optionsOf s → ∃ v, getOpt s key fb = some v
  | [], key, fb, h => by simp [optionsOf] at h
  | (k, v) :: rest, key, fb, h => by
    have h' : key = k ∨ key ∈ optionsOf rest := by simpa [optionsOf] using h
    by_cases hk : k = key
    · exact ⟨v, by simp [getOpt, hk]⟩
    · have hmem : key ∈ optionsOf rest := h'.resolve_left (fun he => hk he.symm)
      obtain ⟨w, hw⟩ := getOpt_some_of_mem rest key fb hmem
      exact ⟨w, by simp [getOpt, hk, hw]⟩

theorem gvf_store_eq (store : Store) (sec key : String) (o : Opts) :
    (getvalueFull store sec key o).2.2 = store := by
  unfold getvalueFull
  cases h : o.n with
  | none => rfl
  | some n =>
    cases h2 : findSection store sec with
    | none => rfl
    | some s => rfl

theorem iterAux_store_eq (sec key : String) (co : Opts) :
    ∀ (f : Nat) (st : Store) (n : Nat), (iterAux sec key co f st n).2.2 = st := by
  intro f
  induction f with
  | zero => intro st n; rfl
  | succ f ih =>
    intro st n
    rcases hpr : getvalueFull st sec key (probeOpts co.sep n) with ⟨r1, w1, st1⟩
    have hst1 : st1 = st := by
      have hh := gvf_store_eq st sec key (probeOpts co.sep n)
      rw [hpr] at hh
      exact hh
    subst hst1
    simp only [iterAux, hpr]
    cases r1 with
    | error e => rfl
    | ok v =>
      by_cases ht : pyTruthy v
      · simp only [ht, if_true]
        rcases hem : getvalueFull st1 sec key (withN co n) with ⟨r2, w2, st2⟩
        have hst2 : st2 = st1 := by
          have hh := gvf_store_eq st1 sec key (withN co n)
          rw [hem] at hh
          exact hh
        subst hst2
        cases r2 with
        | error e => rfl
        | ok ev =>
          cases ev
          all_goals first
            | rfl
            | simpa using ih _ (n + 1)
      · simp [ht]

/-- C9: resolution is a pure read projection: neither `getvalue` nor
`getvalueiter` adds, removes or modifies any section or option of the store. -/
theorem resolution_is_pure_read_projection :
    (∀ (store : Store) (sec key : String) (o : Opts),
      (getvalueFull store sec key o).2.2 = store) ∧
    (∀ (store : Store) (sec key : String) (co : Opts),
      (getvalueiterFull store sec key co).2.2 = store) :=
  ⟨gvf_store_eq, fun store sec key co => iterAux_store_eq sec key co _ store 0⟩

/-- C1: the claim says resolution (with `n` omitted, i.e. the "no indexing"
sentinel) returns a converted value or the fallback; but
`n = int(opts['n'])` raises `TypeError` on the default `n = None`, so every
call omitting `n` fails, even with the key present. -/
theorem getvalue_omitted_n_raises_typeerror :
    defaultOpts.n = Option.none ∧
    getvalue exStore1 "sec" "x" defaultOpts = Except.error PyErr.typeError :=
  ⟨rfl, rfl⟩

/-- C2: when the physical option `"{key}{n}"` exists, `getvalue` resolves to
that option's (stripped, converted) value, regardless of whether the base
key is also present; in particular `{"x0": "a", "x1": "b"}`, key `"x"`,
`n = 1` resolves to `"b"`, also when `"x"` itself is present. -/
theorem getvalue_indexed_option_precedence :
    (∀ (store : Store) (sec key : String) (i : Int) (fb : Option String)
        (sep : String) (dt : Dtype) (ag : Bool) (s : SectionT),
        findSection store sec = some s →
        key ++ intToStr i ∈ optionsOf s →
        getvalue store sec key ⟨fb, some i, sep, dt, ag⟩ =
          postprocess dt (getOpt s (key ++ intToStr i) fb)) ∧
    getvalue exC2 "sec" "x" (withN defaultOpts 1) = Except.ok (Value.str "b") ∧
    getvalue exC2pre "sec" "x" (withN defaultOpts 1) = Except.ok (Value.str "b") := by
  refine ⟨?_, by decide, by decide⟩
  intro store sec key i fb sep dt ag s h1 h2
  simp only [getvalue, getvalueFull, h1]
  simp only [resolveRaw, if_pos h2]

theorem getvalue_indexed_option_precedence_witness :
    getvalue exC2 "sec" "x" ⟨Option.none, some 1, " ", Dtype.noneD, true⟩ =
      postprocess Dtype.noneD (getOpt [("x0", "a"), ("x1", "b")] ("x" ++ intToStr 1) Option.none) :=
  getvalue_indexed_option_precedence.1 exC2 "sec" "x" 1 Option.none " "
    Dtype.noneD true [("x0", "a"), ("x1", "b")] rfl (by decide)

/-- C3: with the base key present, no indexed option, and a single-element
split, `getvalue` returns the (stripped) element exactly when `n = 0` or
`allow_global` is enabled, and the fallback otherwise; concretely
`{"x": "a"}`, key `"x"`, `n = 1` gives the fallback when `allow_global` is
off and `"a"` when it is on. -/
theorem getvalue_single_value_global_gate :
    (∀ (store : Store) (sec key : String) (i : Int) (fb : Option String)
        (sep : String) (ag : Bool) (s : SectionT) (v e : String),
        findSection store sec = some s →
        key ++ intToStr i ∉ optionsOf s →
        key ∈ optionsOf s →
        getOpt s key Option.none = some v →
        pySplitOn v sep = [e] →
        getvalue store sec key ⟨fb, some i, sep, Dtype.noneD, ag⟩ =
          Except.ok (toValue ((if i = 0 ∨ ag = true then some e else fb).map pyStrip))) ∧
    getvalue exStore1 "sec" "x" ⟨Option.none, some 1, " ", Dtype.noneD, false⟩ =
      Except.ok Value.none ∧
    getvalue exStore1 "sec" "x" ⟨Option.none, some 1, " ", Dtype.noneD, true⟩ =
      Except.ok (Value.str "a") := by
  refine ⟨?_, by decide, by decide⟩
  intro store sec key i fb sep ag s v e h1 h2 h3 h4 h5
  have h4' : getOpt s key fb = some v := by
    rw [getOpt_fb_irrel s key fb Option.none h3]; exact h4
  simp only [getvalue, getvalueFull, h1]
  simp only [resolveRaw, if_neg h2, if_pos h3, h4', h5]
  by_cases hc : i ≠ 0 ∧ ag = false
  · have : ¬(i = 0 ∨ ag = true) := by
      rcases hc with ⟨hi, hag⟩
      rintro (h | h)
      · exact hi h
      · rw [hag] at h; exact Bool.false_ne_true h
    simp [hc, this, postprocess, convert]
  · have : i = 0 ∨ ag = true := by
      by_contra hn
      push_neg at hn
      exact hc ⟨hn.1, by simpa using hn.2⟩
    simp [hc, this, postprocess, convert]

theorem getvalue_single_value_global_gate_witness :
    getvalue exStore1 "sec" "x" ⟨Option.none, some 2, " ", Dtype.noneD, true⟩ =
      Except.ok (toValue ((if (2 : Int) = 0 ∨ true = true then some "a" else Option.none).map pyStrip)) :=
  getvalue_single_value_global_gate.1 exStore1 "sec" "x" 2 Option.none " "
    true [("x", "a")] "a" "a" rfl (by decide) (by decide) (by decide) (by decide)

/-- C10: for a base key whose value splits into two or more elements and a
negative index `i` with `-len <= i < 0`, `getvalue` returns the element
counted from the end (Python-style negative indexing) with no warning,
rather than the fallback. -/
theorem getvalue_negative_index_from_end :
    ∀ (store : Store) (sec key : String) (i : Int) (fb : Option String)
      (sep : String) (ag : Bool) (s : SectionT) (v e : String),
      findSection store sec = some s →
      key ++ intToStr i ∉ optionsOf s →
      key ∈ optionsOf s →
      getOpt s key Option.none = some v →
      2 ≤ (pySplitOn v sep).length →
      i < 0 →
      -((pySplitOn v sep).length : Int) ≤ i →
      (pySplitOn v sep).get? (((pySplitOn v sep).length : Int) + i).toNat = some e →
      getvalueFull store sec key ⟨fb, some i, sep, Dtype.noneD, ag⟩ =
        (Except.ok (Value.str (pyStrip e)), [], store) := by
  intro store sec key i fb sep ag s v e h1 h2 h3 h4 hlen hneg hbound hget
  have h4' : getOpt s key fb = some v := by
    rw [getOpt_fb_irrel s key fb Option.none h3]; exact h4
  have hlen1 : (pySplitOn v sep).length ≠ 1 := by omega
  have hidx : pyIndex (pySplitOn v sep) i = some e := by
    unfold pyIndex
    rw [if_neg (by omega), if_pos hbound]
    exact hget
  simp only [getvalueFull, h1]
  simp only [resolveRaw, if_neg h2, if_pos h3, h4', if_neg hlen1, hidx]
  rfl

theorem getvalue_negative_index_from_end_witness :
    getvalueFull exNeg "sec" "x" ⟨Option.none, some (-1), " ", Dtype.noneD, true⟩ =
      (Except.ok (Value.str (pyStrip "c")), [], exNeg) :=
  getvalue_negative_index_from_end exNeg "sec" "x" (-1) Option.none " "
    true [("x", "a b c")] "a b c" "c" rfl (by decide) (by decide) (by decide)
    (by decide) (by decide) (by decide) (by decide)

/-- C5 counterexample: the claim (and the spec's example) says
`"1 2 3 m"` converts to the array `[1.0, 2.0]` with unit meters, but the
code keeps all three leading tokens: the result is `[1.0, 2.0, 3.0]`. -/
theorem getquantity_three_tokens_counterexample :
    getquantity (some "1 2 3 m") =
      Except.ok (Value.quantity ⟨[1, 2, 3], true, UnitT.named "m"⟩) ∧
    getquantity (some "1 2 3 m") ≠
      Except.ok (Value.quantity ⟨[1, 2], true, UnitT.named "m"⟩) :=
  ⟨by decide, by decide⟩

/-- A non-empty whitespace split forces a non-empty string. -/
theorem pySplitWs_ne_nil_data (v : String) (l : List String) (hne : l ≠ [])
    (h : pySplitWs v = l) : v.data.isEmpty = false := by
  cases hd : v.data with
  | nil =>
    exfalso
    have hempty : pySplitWs v = [] := by simp [pySplitWs, hd, splitWsAux]
    rw [hempty] at h
    exact hne h.symm
  | cons c cs => simp [hd]

/-- The last element of `l ++ [u]` with a default. -/
theorem getLastD_append_singleton : ∀ (l : List String) (u : String),
    (l ++ [u]).getLastD "" = u
  | [], u => rfl
  | a :: rest, u => by
    rw [List.cons_append]
    cases hr : rest ++ [u] with
    | nil => exact absurd hr (by simp)
    | cons c tl =>
      have := getLastD_append_singleton rest u
      rw [hr] at this
      simpa using this

/-- Dropping the last element of `l ++ [u]` gives back `l`. -/
theorem dropLast_append_singleton {α : Type} : ∀ (l : List α) (u : α),
    (l ++ [u]).dropLast = l
  | [], u => rfl
  | a :: rest, u => by
    rw [List.cons_append]
    cases hr : rest ++ [u] with
    | nil => exact absurd hr (by simp)
    | cons c tl =>
      have := dropLast_append_singleton rest u
      rw [hr] at this
      rw [List.dropLast_cons₂, this]

/-- C5 amended: the quantity converter dispatches on the token count of the
whitespace-split input: one token gives a dimensionless float, two tokens
give `float(token0)` with the unit named by token1, and three or more
tokens give all-but-last tokens as a float array whose unit is the last
token unless that token is a dimensionless marker (`dimless`,
`dimensionless`, `nounit`, `1`), in which case the array is dimensionless;
in particular `"1 2 3 m"` gives the array `[1.0, 2.0, 3.0]` with unit
meters. -/
theorem getquantity_token_count_dispatch :
    (∀ (v t : String), pySplitWs v = [t] →
      getquantity (some v) =
        (match pyFloat? t with
         | some q => Except.ok (Value.quantity ⟨[q], false, UnitT.one⟩)
         | Option.none => Except.error PyErr.valueError)) ∧
    (∀ (v t u : String), pySplitWs v = [t, u] →
      getquantity (some v) =
        (match pyFloat? t with
         | some q => Except.ok (Value.quantity ⟨[q], false, UnitT.named u⟩)
         | Option.none => Except.error PyErr.valueError)) ∧
    (∀ (v u : String) (ts : List String), pySplitWs v = ts ++ [u] → 2 ≤ ts.length →
      getquantity (some v) =
        (match floatList ts with
         | Except.ok qs =>
           Except.ok (Value.quantity ⟨qs, true,
             if pyStrip u ∈ ["dimless", "dimensionless", "nounit", "1"]
             then UnitT.one else UnitT.named u⟩)
         | Except.error e => Except.error e)) ∧
    getquantity (some "10") = Except.ok (Value.quantity ⟨[10], false, UnitT.one⟩) ∧
    getquantity (some "10 m") = Except.ok (Value.quantity ⟨[10], false, UnitT.named "m"⟩) ∧
    getquantity (some "1 2 3 m") =
      Except.ok (Value.quantity ⟨[1, 2, 3], true, UnitT.named "m"⟩) ∧
    getquantity (some "1 2 dimless") =
      Except.ok (Value.quantity ⟨[1, 2], true, UnitT.one⟩) := by
  refine ⟨?_, ?_, ?_, by decide, by decide, by decide, by decide⟩
  · intro v t h
    have hne := pySplitWs_ne_nil_data v [t] (by simp) h
    simp only [getquantity, hne, Bool.false_eq_true, if_false, h]
  · intro v t u h
    have hne := pySplitWs_ne_nil_data v [t, u] (by simp) h
    simp only [getquantity, hne, Bool.false_eq_true, if_false, h]
  · intro v u ts h hlen
    have hne := pySplitWs_ne_nil_data v (ts ++ [u]) (by simp) h
    match ts, hlen with
    | a :: b :: ts', _ =>
      have hget := getLastD_append_singleton (a :: b :: ts') u
      have hdrop := dropLast_append_singleton (a :: b :: ts') u
      cases ts' with
      | nil =>
        simp only [getquantity, hne, Bool.false_eq_true, if_false, h]
        simp only [List.cons_append, List.nil_append] at hget hdrop ⊢
        rw [hget, hdrop]
      | cons c tl =>
        simp only [getquantity, hne, Bool.false_eq_true, if_false, h]
        simp only [List.cons_append] at hget hdrop ⊢
        rw [hget, hdrop]

theorem getquantity_token_count_dispatch_witness :
    getquantity (some "10 m") =
      (match pyFloat? "10" with
       | some q => Except.ok (Value.quantity ⟨[q], false, UnitT.named "m"⟩)
       | Option.none => Except.error PyErr.valueError) :=
  getquantity_token_count_dispatch.2.1 "10 m" "10" "m" (by decide)

/-- C6: the claim says the generic list converter returns the list of
substrings of its input; but `@splitter_decorator` without parentheses
binds `list_converter` to the inner `decorator` closure (the decorated
function became the `dtype` argument), so applying it to a string returns
the `wrapper` closure — a function object, not a list. -/
theorem list_converter_returns_closure :
    list_converter = PyObj.decoratorObj PyObj.rawListConverter ∧
    callPy1 list_converter (PyObj.vstr "a b") =
      some (PyObj.wrapperObj PyObj.rawListConverter (PyObj.vstr "a b")) :=
  ⟨rfl, rfl⟩

/-- C7: the sky-coordinate conversion path of `astropy_converter` accepts
exactly two or three whitespace-separated tokens `ra dec [frame]`,
defaulting the frame to `"icrs"` when it is omitted, and fails with
`ValueError` on any other token count; concretely `"10.0 20.0 icrs"` and
`"10.0 20.0"` both give `(ra=10.0, dec=20.0, frame=icrs)` while `"10.0"`
fails. -/
theorem skycoord_two_or_three_tokens :
    (∀ (v a b c : String), pySplitWs v = [a, b, c] →
      astropy_converter v "skycoord" = Except.ok (Value.skycoord ⟨a, b, c⟩)) ∧
    (∀ (v a b : String), pySplitWs v = [a, b] →
      astropy_converter v "skycoord" = Except.ok (Value.skycoord ⟨a, b, "icrs"⟩)) ∧
    (∀ (v : String), (pySplitWs v).length ≠ 2 → (pySplitWs v).length ≠ 3 →
      astropy_converter v "skycoord" = Except.error PyErr.valueError) ∧
    astropy_converter "10.0 20.0 icrs" "skycoord" =
      Except.ok (Value.skycoord ⟨"10.0", "20.0", "icrs"⟩) ∧
    astropy_converter "10.0 20.0" "skycoord" =
      Except.ok (Value.skycoord ⟨"10.0", "20.0", "icrs"⟩) ∧
    astropy_converter "10.0" "skycoord" = Except.error PyErr.valueError := by
  refine ⟨?_, ?_, ?_, by decide, by decide, by decide⟩
  · intro v a b c h
    simp only [astropy_converter, if_neg (show ¬(pyLower "skycoord" = "quantity") by decide),
      if_pos (show pyLower "skycoord" = "skycoord" by decide), h]
  · intro v a b h
    simp only [astropy_converter, if_neg (show ¬(pyLower "skycoord" = "quantity") by decide),
      if_pos (show pyLower "skycoord" = "skycoord" by decide), h]
  · intro v h2 h3
    simp only [astropy_converter, if_neg (show ¬(pyLower "skycoord" = "quantity") by decide),
      if_pos (show pyLower "skycoord" = "skycoord" by decide)]
    match hs : pySplitWs v with
    | [] => rfl
    | [a] => rfl
    | [a, b] => rw [hs] at h2; simp at h2
    | [a, b, c] => rw [hs] at h3; simp at h3
    | a :: b :: c :: d :: tl => rfl

theorem skycoord_two_or_three_tokens_witness :
    astropy_converter "1 2" "skycoord" = Except.ok (Value.skycoord ⟨"1", "2", "icrs"⟩) :=
  skycoord_two_or_three_tokens.2.1 "1 2" "1" "2" (by decide)

/-- C8: the int-list and float-list converters split on commas when a comma
is present, otherwise on the given separator, or on arbitrary whitespace
when the separator is `None`; every element is coerced to the target
numeric type and every successful result is a list of length at least one;
concretely `"1,2,3"` and `"1 2 3"` give `[1,2,3]` and `"5"` gives `[5]`. -/
theorem intlist_floatlist_two_tier_split :
    (∀ (v : String) (sep : Option String), ',' ∈ v.data →
      coma_splitter v sep = pySplitOn v ",") ∧
    (∀ (v sp : String), ¬(',' ∈ v.data) →
      coma_splitter v (some sp) = pySplitOn v sp) ∧
    (∀ (v : String), ¬(',' ∈ v.data) →
      coma_splitter v Option.none = pySplitWs v) ∧
    (∀ (v : String) (sep : Option String) (l : List Int),
      intlist_converter (some v) sep = Except.ok (some l) →
      intList (coma_splitter v sep) = Except.ok l ∧ 1 ≤ l.length) ∧
    (∀ (v : String) (sep : Option String) (l : List ℚ),
      floatlist_converter (some v) sep = Except.ok (some l) →
      floatList (coma_splitter v sep) = Except.ok l ∧ 1 ≤ l.length) ∧
    intlist_converter (some "1,2,3") (some " ") = Except.ok (some [1, 2, 3]) ∧
    intlist_converter (some "1 2 3") (some " ") = Except.ok (some [1, 2, 3]) ∧
    intlist_converter (some "5") (some " ") = Except.ok (some [5]) ∧
    floatlist_converter (some "1,2,3") (some " ") = Except.ok (some [1, 2, 3]) := by
  refine ⟨?_, ?_, ?_, ?_, ?_, by decide, by decide, by decide, by decide⟩
  · intro v sep h
    simp [coma_splitter, h]
  · intro v sp h
    simp [coma_splitter, h]
  · intro v h
    simp [coma_splitter, h]
  · intro v sep l h
    simp only [intlist_converter] at h
    cases hm : intList (coma_splitter v sep) with
    | error e => rw [hm] at h; exact Except.noConfusion h
    | ok l0 =>
      simp only [hm] at h
      by_cases hl : l0.length < 1
      · rw [if_pos hl] at h; exact Except.noConfusion h
      · rw [if_neg hl] at h
        have : l0 = l := Option.some.inj (Except.ok.inj h)
        subst this
        exact ⟨rfl, by omega⟩
  · intro v sep l h
    simp only [floatlist_converter] at h
    cases hm : floatList (coma_splitter v sep) with
    | error e => rw [hm] at h; exact Except.noConfusion h
    | ok l0 =>
      simp only [hm] at h
      by_cases hl : l0.length < 1
      · rw [if_pos hl] at h; exact Except.noConfusion h
      · rw [if_neg hl] at h
        have : l0 = l := Option.some.inj (Except.ok.inj h)
        subst this
        exact ⟨rfl, by omega⟩

theorem intlist_floatlist_two_tier_split_witness :
    intList (coma_splitter "1,2,3" (some " ")) = Except.ok [1, 2, 3] ∧
    1 ≤ ([1, 2, 3] : List Int).length :=
  intlist_floatlist_two_tier_split.2.2.2.1 "1,2,3" (some " ") [1, 2, 3] (by decide)

/-! ### Injectivity of the decimal rendering (towards iterator termination) -/

theorem fromDigitsRev_toDigitsRevAux : ∀ (f n : Nat), n ≤ f →
    fromDigitsRev (toDigitsRevAux f n) = n := by
  intro f
  induction f with
  | zero =>
    intro n h
    have hz : n = 0 := by omega
    subst hz
    rfl
  | succ f ih =>
    intro n h
    by_cases hz : n = 0
    · subst hz; rfl
    · simp only [toDigitsRevAux, if_neg hz, fromDigitsRev]
      have hlt : n / 10 < n := Nat.div_lt_self (Nat.pos_of_ne_zero hz) (by omega)
      rw [ih (n / 10) (by omega)]
      omega

theorem toDigitsRevAux_lt_ten : ∀ (f n d : Nat), d ∈ toDigitsRevAux f n → d < 10 := by
  intro f
  induction f with
  | zero => intro n d hd; simp [toDigitsRevAux] at hd
  | succ f ih =>
    intro n d hd
    by_cases hz : n = 0
    · subst hz; simp [toDigitsRevAux] at hd
    · simp only [toDigitsRevAux, if_neg hz, List.mem_cons] at hd
      rcases hd with h | h
      · subst h; omega
      · exact ih _ d h

theorem charToDigit_digitChar : ∀ d, d < 10 → charToDigit (digitChar d) = d := by decide

theorem map_digitChar_left_inverse : ∀ (l : List Nat), (∀ d ∈ l, d < 10) →
    (l.map digitChar).map charToDigit = l
  | [], _ => rfl
  | d :: ds, h => by
    simp only [List.map_cons, List.map_map]
    rw [charToDigit_digitChar d (h d (by simp))]
    have := map_digitChar_left_inverse ds (fun x hx => h x (by simp [hx]))
    rw [List.map_map] at this
    rw [this]

theorem natDigitsRev_inj {a b : Nat} (h : natDigitsRev a = natDigitsRev b) : a = b := by
  have ha := fromDigitsRev_toDigitsRevAux a a le_rfl
  have hb := fromDigitsRev_toDigitsRevAux b b le_rfl
  unfold natDigitsRev at h
  rw [← ha, ← hb, h]

theorem digit_lists_map_inj {l1 l2 : List Nat} (h1 : ∀ d ∈ l1, d < 10)
    (h2 : ∀ d ∈ l2, d < 10) (h : l1.map digitChar = l2.map digitChar) : l1 = l2 := by
  have := congrArg (List.map charToDigit) h
  rwa [map_digitChar_left_inverse l1 h1, map_digitChar_left_inverse l2 h2] at this

theorem natToDecimal_inj : ∀ (a b : Nat), natToDecimal a = natToDecimal b → a = b := by
  intro a b h
  unfold natToDecimal at h
  by_cases haz : a = 0 <;> by_cases hbz : b = 0
  · omega
  · exfalso
    rw [if_pos haz, if_neg hbz] at h
    have hdata : ['0'] = ((natDigitsRev b).reverse.map digitChar) := congrArg String.data h
    have h0 : ([0] : List Nat).map digitChar = ['0'] := by decide
    have hlists : ([0] : List Nat) = (natDigitsRev b).reverse := by
      refine digit_lists_map_inj (by decide) ?_ (by rw [h0, hdata])
      intro d hd
      exact toDigitsRevAux_lt_ten b b d (by simpa using hd)
    have hrev : natDigitsRev b = [0] := by
      have := congrArg List.reverse hlists
      simpa using this.symm
    have : b = 0 := by
      have hfb := fromDigitsRev_toDigitsRevAux b b le_rfl
      unfold natDigitsRev at hrev
      rw [hrev] at hfb
      simpa [fromDigitsRev] using hfb.symm
    exact hbz this
  · exfalso
    rw [if_neg haz, if_pos hbz] at h
    have hdata : ((natDigitsRev a).reverse.map digitChar) = ['0'] := congrArg String.data h
    have h0 : ([0] : List Nat).map digitChar = ['0'] := by decide
    have hlists : (natDigitsRev a).reverse = ([0] : List Nat) := by
      refine digit_lists_map_inj ?_ (by decide) (by rw [h0, hdata])
      intro d hd
      exact toDigitsRevAux_lt_ten a a d (by simpa using hd)
    have hrev : natDigitsRev a = [0] := by
      have := congrArg List.reverse hlists
      simpa using this
    have : a = 0 := by
      have hfa := fromDigitsRev_toDigitsRevAux a a le_rfl
      unfold natDigitsRev at hrev
      rw [hrev] at hfa
      simpa [fromDigitsRev] using hfa.symm
    exact haz this
  · rw [if_neg haz, if_neg hbz] at h
    have hdata : ((natDigitsRev a).reverse.map digitChar) =
        ((natDigitsRev b).reverse.map digitChar) := congrArg String.data h
    have hlists : (natDigitsRev a).reverse = (natDigitsRev b).reverse := by
      refine digit_lists_map_inj ?_ ?_ hdata
      · intro d hd; exact toDigitsRevAux_lt_ten a a d (by simpa using hd)
      · intro d hd; exact toDigitsRevAux_lt_ten b b d (by simpa using hd)
    have : natDigitsRev a = natDigitsRev b := by
      have := congrArg List.reverse hlists
      simpa using this
    exact natDigitsRev_inj this

theorem intToStr_natCast (m : Nat) : intToStr (m : Int) = natToDecimal m := by
  unfold intToStr
  rw [if_neg (by omega)]
  norm_num

theorem subkeyNat_inj (key : String) {a b : Nat}
    (h : key ++ natToDecimal a = key ++ natToDecimal b) : a = b := by
  have hdata : key.data ++ (natToDecimal a).data = key.data ++ (natToDecimal b).data :=
    congrArg String.data h
  have : (natToDecimal a).data = (natToDecimal b).data :=
    List.append_cancel_left hdata
  exact natToDecimal_inj a b (by
    cases hA : natToDecimal a
    cases hB : natToDecimal b
    rw [hA, hB] at this
    simp only at this
    rw [this])

/-! ### Probe characterisation for the iterator -/

theorem gvf_probe (store : Store) (sec key sep : String) (m : Nat) (s : SectionT)
    (hs : findSection store sec = some s) :
    getvalueFull store sec key (probeOpts sep m) =
      (Except.ok (toValue ((resolveRaw s key Option.none (m : Int) sep false).1.map pyStrip)),
       (resolveRaw s key Option.none (m : Int) sep false).2, store) := by
  simp only [getvalueFull, probeOpts, hs]
  rfl

theorem probeValue_eq (store : Store) (sec key sep : String) (m : Nat) (s : SectionT)
    (hs : findSection store sec = some s) :
    probeValue store sec key sep m =
      toValue ((resolveRaw s key Option.none (m : Int) sep false).1.map pyStrip) := by
  unfold probeValue
  rw [gvf_probe store sec key sep m s hs]

theorem probe_truthy_cases (store : Store) (sec key sep : String) (m : Nat) (s : SectionT)
    (hs : findSection store sec = some s)
    (ht : pyTruthy (probeValue store sec key sep m) = true) :
    key ++ intToStr (m : Int) ∈ optionsOf s ∨ m < LBound s key sep := by
  rw [probeValue_eq store sec key sep m s hs] at ht
  by_cases h1 : key ++ intToStr (m : Int) ∈ optionsOf s
  · exact Or.inl h1
  · right
    by_cases h2 : key ∈ optionsOf s
    · obtain ⟨v, hv⟩ := getOpt_some_of_mem s key Option.none h2
      have hL : LBound s key sep = (pySplitOn v sep).length := by
        simp [LBound, hv]
      simp only [resolveRaw, if_neg h1, if_pos h2, hv] at ht
      by_cases hlen : (pySplitOn v sep).length = 1
      · rw [if_pos hlen] at ht
        by_cases hm0 : (m : Int) = 0
        · have : m = 0 := by exact_mod_cast hm0
          omega
        · rw [if_pos ⟨hm0, trivial⟩] at ht
          simp [toValue, pyTruthy] at ht
      · rw [if_neg hlen] at ht
        cases hidx : pyIndex (pySplitOn v sep) (m : Int) with
        | none =>
          rw [hidx] at ht
          simp [toValue, pyTruthy] at ht
        | some e =>
          unfold pyIndex at hidx
          rw [if_pos (by omega)] at hidx
          have hlt : ((m : Int)).toNat < (pySplitOn v sep).length := by
            obtain ⟨hh, _⟩ := List.get?_eq_some.mp hidx
            exact hh
          rw [hL]
          omega
    · simp only [resolveRaw, if_neg h1, if_neg h2] at ht
      simp [toValue, pyTruthy] at ht

theorem resolveRaw_ag_eq (s : SectionT) (key sep : String) (m : Nat)
    (ht : pyTruthy (toValue ((resolveRaw s key Option.none (m : Int) sep false).1.map pyStrip)) = true) :
    resolveRaw s key Option.none (m : Int) sep true =
      resolveRaw s key Option.none (m : Int) sep false := by
  by_cases h1 : key ++ intToStr (m : Int) ∈ optionsOf s
  · simp only [resolveRaw, if_pos h1]
  · by_cases h2 : key ∈ optionsOf s
    · obtain ⟨v, hv⟩ := getOpt_some_of_mem s key Option.none h2
      simp only [resolveRaw, if_neg h1, if_pos h2, hv] at ht ⊢
      by_cases hlen : (pySplitOn v sep).length = 1
      · rw [if_pos hlen] at ht ⊢
        rw [if_pos hlen]
        by_cases hm0 : (m : Int) = 0
        · rw [if_neg (by simp [hm0]), if_neg (by simp [hm0])]
        · rw [if_pos ⟨hm0, trivial⟩] at ht
          simp [toValue, pyTruthy] at ht
      · rw [if_neg hlen] at ht ⊢
        rw [if_neg hlen]
    · simp only [resolveRaw, if_neg h1, if_neg h2]

theorem gvf_emit_eq (store : Store) (sec key sep : String) (m : Nat) (s : SectionT)
    (hs : findSection store sec = some s)
    (ht : pyTruthy (probeValue store sec key sep m) = true) :
    getvalueFull store sec key (withN ⟨Option.none, Option.none, sep, Dtype.noneD, true⟩ m) =
      getvalueFull store sec key (probeOpts sep m) := by
  have ht' := ht
  rw [probeValue_eq store sec key sep m s hs] at ht'
  have hr := resolveRaw_ag_eq s key sep m ht'
  simp only [getvalueFull, withN, probeOpts, hs]
  rw [hr]

theorem exists_probe_gap (store : Store) (sec key sep : String) (s : SectionT)
    (hs : findSection store sec = some s) :
    ∃ j, j < iterFuel store sec key sep ∧
      pyTruthy (probeValue store sec key sep j) = false := by
  by_contra hcon
  push_neg at hcon
  have htr : ∀ j, j < iterFuel store sec key sep →
      pyTruthy (probeValue store sec key sep j) = true := by
    intro j hj
    have hne := hcon j hj
    cases hb : pyTruthy (probeValue store sec key sep j)
    · exact absurd hb hne
    · rfl
  have hfuel : iterFuel store sec key sep =
      (optionsOf s).length + LBound s key sep + 2 := by
    simp [iterFuel, hs]
  have hcases : ∀ j ∈ Finset.range ((optionsOf s).length + LBound s key sep + 2),
      key ++ natToDecimal j ∈ optionsOf s ∨ j < LBound s key sep := by
    intro j hj
    have hjf : j < iterFuel store sec key sep := by
      rw [hfuel]
      exact Finset.mem_range.mp hj
    have hc := probe_truthy_cases store sec key sep j s hs (htr j hjf)
    rwa [intToStr_natCast] at hc
  have hsub : Finset.range ((optionsOf s).length + LBound s key sep + 2) ⊆
      ((Finset.range ((optionsOf s).length + LBound s key sep + 2)).filter
        (fun j => key ++ natToDecimal j ∈ optionsOf s)) ∪
      Finset.range (LBound s key sep) := by
    intro j hj
    rcases hcases j hj with h | h
    · exact Finset.mem_union_left _ (Finset.mem_filter.mpr ⟨hj, h⟩)
    · exact Finset.mem_union_right _ (Finset.mem_range.mpr h)
  have hcard1 : (optionsOf s).length + LBound s key sep + 2 ≤
      ((Finset.range ((optionsOf s).length + LBound s key sep + 2)).filter
        (fun j => key ++ natToDecimal j ∈ optionsOf s)).card + LBound s key sep := by
    have hc := Finset.card_le_card hsub
    rw [Finset.card_range] at hc
    have hu := Finset.card_union_le
      ((Finset.range ((optionsOf s).length + LBound s key sep + 2)).filter
        (fun j => key ++ natToDecimal j ∈ optionsOf s))
      (Finset.range (LBound s key sep))
    rw [Finset.card_range] at hu
    omega
  have hTcard : ((Finset.range ((optionsOf s).length + LBound s key sep + 2)).filter
      (fun j => key ++ natToDecimal j ∈ optionsOf s)).card ≤ (optionsOf s).length := by
    have himg : ∀ j ∈ (Finset.range ((optionsOf s).length + LBound s key sep + 2)).filter
        (fun j => key ++ natToDecimal j ∈ optionsOf s),
        key ++ natToDecimal j ∈ (optionsOf s).toFinset := by
      intro j hj
      exact List.mem_toFinset.mpr (Finset.mem_filter.mp hj).2
    have hinj : ∀ a ∈ (Finset.range ((optionsOf s).length + LBound s key sep + 2)).filter
        (fun j => key ++ natToDecimal j ∈ optionsOf s),
        ∀ b ∈ (Finset.range ((optionsOf s).length + LBound s key sep + 2)).filter
          (fun j => key ++ natToDecimal j ∈ optionsOf s),
        key ++ natToDecimal a = key ++ natToDecimal b → a = b := by
      intro a _ b _ h
      exact subkeyNat_inj key h
    have hcc := Finset.card_le_card_of_injOn (fun j => key ++ natToDecimal j) himg hinj
    calc ((Finset.range ((optionsOf s).length + LBound s key sep + 2)).filter
        (fun j => key ++ natToDecimal j ∈ optionsOf s)).card
        ≤ (optionsOf s).toFinset.card := hcc
      _ ≤ (optionsOf s).length := (optionsOf s).toFinset_card_le
  omega

theorem firstGapAux_spec (store : Store) (sec key sep : String) :
    ∀ (f n : Nat),
      (∃ j, n ≤ j ∧ j < n + f ∧ pyTruthy (probeValue store sec key sep j) = false) →
      (∀ m, n ≤ m → m < firstGapAux store sec key sep f n →
        pyTruthy (probeValue store sec key sep m) = true) ∧
      pyTruthy (probeValue store sec key sep (firstGapAux store sec key sep f n)) = false ∧
      firstGapAux store sec key sep f n < n + f := by
  intro f
  induction f with
  | zero =>
    intro n hex
    obtain ⟨j, hj1, hj2, _⟩ := hex
    omega
  | succ f ih =>
    intro n hex
    by_cases ht : pyTruthy (probeValue store sec key sep n) = true
    · simp only [firstGapAux, ht, if_true]
      obtain ⟨j, hj1, hj2, hj3⟩ := hex
      have hjne : j ≠ n := by
        intro he
        rw [he, ht] at hj3
        exact Bool.noConfusion hj3
      obtain ⟨ha, hb, hc⟩ := ih (n + 1) ⟨j, by omega, by omega, hj3⟩
      refine ⟨?_, hb, by omega⟩
      intro m hm1 hm2
      by_cases hmn : m = n
      · rw [hmn]; exact ht
      · exact ha m (by omega) hm2
    · have htf : pyTruthy (probeValue store sec key sep n) = false := by
        cases hb : pyTruthy (probeValue store sec key sep n)
        · rfl
        · exact absurd hb ht
      simp only [firstGapAux, htf, Bool.false_eq_true, if_false]
      exact ⟨fun m hm1 hm2 => by omega, trivial, by omega⟩

theorem iterAux_spec (store : Store) (sec key sep : String) (s : SectionT)
    (hs : findSection store sec = some s) (N : Nat)
    (hN1 : ∀ m, m < N → pyTruthy (probeValue store sec key sep m) = true)
    (hN2 : pyTruthy (probeValue store sec key sep N) = false) :
    ∀ (f n : Nat), n ≤ N → N - n < f →
      (iterAux sec key ⟨Option.none, Option.none, sep, Dtype.noneD, true⟩ f store n).1 =
        Except.ok ((List.range' n (N - n)).map (probeValue store sec key sep)) := by
  intro f
  induction f with
  | zero => intro n h1 h2; omega
  | succ f ih =>
    intro n h1 h2
    have hpr := gvf_probe store sec key sep n s hs
    have hpv := probeValue_eq store sec key sep n s hs
    by_cases hnN : n = N
    · subst hnN
      have hfalse : pyTruthy (toValue
          ((resolveRaw s key Option.none (n : Int) sep false).1.map pyStrip)) = false := by
        rw [← hpv]; exact hN2
      simp only [iterAux, hpr, hfalse, Bool.false_eq_true, if_false]
      simp
    · have hnlt : n < N := lt_of_le_of_ne h1 hnN
      have htr := hN1 n hnlt
      have hXt : pyTruthy (toValue
          ((resolveRaw s key Option.none (n : Int) sep false).1.map pyStrip)) = true := by
        rw [← hpv]; exact htr
      have hem := gvf_emit_eq store sec key sep n s hs htr
      simp only [iterAux, hpr, hXt, if_true, hem]
      cases hX : (resolveRaw s key Option.none (n : Int) sep false).1.map pyStrip with
      | none =>
        rw [hX] at hXt
        simp [toValue, pyTruthy] at hXt
      | some sv =>
        simp only [toValue]
        have hih := ih (n + 1) (by omega) (by omega)
        simp only [hih]
        have hs1 : N - n = (N - (n + 1)) + 1 := by omega
        rw [hs1, List.range'_succ]
        simp only [List.map_cons]
        rw [hpv, hX]
        rfl

/-- C4: `getvalueiter` yields the resolved values for indices 0, 1, 2, … in
order and stops, without emitting, at the first index whose resolution is
absent/falsy (`firstGap`), which always exists — so the sequence is finite
and gaps are not skipped; for `{"x0": "a", "x1": "b"}` it yields exactly
`["a", "b"]` and for an empty section it yields nothing. -/
theorem getvalueiter_stops_at_first_gap :
    (∀ (store : Store) (sec key sep : String) (s : SectionT),
      findSection store sec = some s →
      (∀ m, m < firstGap store sec key sep →
        pyTruthy (probeValue store sec key sep m) = true) ∧
      pyTruthy (probeValue store sec key sep (firstGap store sec key sep)) = false ∧
      getvalueiterVal store sec key ⟨Option.none, Option.none, sep, Dtype.noneD, true⟩ =
        Except.ok ((List.range (firstGap store sec key sep)).map
          (probeValue store sec key sep))) ∧
    getvalueiterVal exC2 "sec" "x" defaultOpts = Except.ok [Value.str "a", Value.str "b"] ∧
    getvalueiterVal exEmpty "sec" "x" defaultOpts = Except.ok [] := by
  refine ⟨?_, by decide, by decide⟩
  intro store sec key sep s hs
  obtain ⟨j, hjlt, hjf⟩ := exists_probe_gap store sec key sep s hs
  obtain ⟨ha, hb, hc⟩ := firstGapAux_spec store sec key sep (iterFuel store sec key sep) 0
    ⟨j, by omega, by omega, hjf⟩
  refine ⟨fun m hm => ha m (by omega) hm, hb, ?_⟩
  have hspec := iterAux_spec store sec key sep s hs (firstGap store sec key sep)
    (fun m hm => ha m (by omega) hm) hb (iterFuel store sec key sep) 0 (by omega)
    (by simpa [firstGap] using hc)
  simpa [getvalueiterVal, getvalueiterFull, firstGap, List.range_eq_range'] using hspec

theorem getvalueiter_stops_at_first_gap_witness :
    pyTruthy (probeValue exC2 "sec" "x" " " (firstGap exC2 "sec" "x" " ")) = false ∧
    getvalueiterVal exC2 "sec" "x" ⟨Option.none, Option.none, " ", Dtype.noneD, true⟩ =
      Except.ok ((List.range (firstGap exC2 "sec" "x" " ")).map
        (probeValue exC2 "sec" "x" " ")) :=
  ⟨(getvalueiter_stops_at_first_gap.1 exC2 "sec" "x" " " [("x0", "a"), ("x1", "b")] rfl).2.1,
   (getvalueiter_stops_at_first_gap.1 exC2 "sec" "x" " " [("x0", "a"), ("x1", "b")] rfl).2.2⟩
